import Mathlib

/-!
Shallow embedding of the `src/workers` Python sources of the
cold-email-ninja-app repository: `base.py` (`SupabaseWorkerBase`),
`scrape_google_maps.py` (`ScrapeGoogleMapsWorker`), `clean_leads.py`
(`CleanLeadsWorker`) and `anymail_find_emails.py` (`AnymailFindEmailsWorker`).

External collaborators are abstracted as explicit inputs:
the store behind `get_leads` is modelled as the totally-ordered list of rows
matching the query's filters (the deterministic `ORDER BY order_by, id` of
`base.py` line 107), so a `range(offset, offset＋size－1)` request returns the
contiguous slice `(rows.drop offset).take size`; write outcomes are boolean
oracles; each worker's network tasks are given by their outcome lists, in the
order the completion handler observes them.  Worker runs produce an explicit
event trace recording fetches, task executions, progress reports, batch
flushes, lead updates and terminal transitions.
-/

/-- A lead row.  Only the fields the embedded control flow inspects are kept;
all other columns are payload that the workers pass through unexamined. -/
structure Lead where
  id : String := ""
  placeId : String := ""
  companyWebsite : String := ""
  domain : String := ""
deriving DecidableEq, Repr

/-- A location row loaded from the locations CSV
(`scrape_google_maps.py`, `_load_locations`). -/
structure Location where
  city : String := ""
  state : String := ""
  zip : String := ""
  country : String := "USA"
deriving DecidableEq, Repr

/-- The `progress` JSON column of a `bulk_jobs` row: the dict
`\x7b"processed": p, "total": t, **extra\x7d` built by `update_progress`
(`base.py` lines 36-38).  `metrics` holds the `**extra` keyword pairs. -/
structure ProgressSnapshot where
  processed : Nat
  total : Nat
  metrics : List (String × Nat)
deriving DecidableEq, Repr

/-- The mutable part of a `bulk_jobs` row that `base.py` writes:
`status`, `error`, `progress`, `completed_at`. -/
structure JobRecord where
  status : String := "running"
  errorMsg : Option String := none
  progress : ProgressSnapshot := ⟨0, 0, []⟩
  completedAt : Bool := false
deriving DecidableEq, Repr

/-- An observable side effect of a worker run. -/
inductive Event where
  /-- a call to `update_progress(processed, total, **metrics)` -/
  | progress (processed total : Nat) (metrics : List (String × Nat))
  /-- a call to `get_leads(..., limit=limit)` against the store -/
  | fetch (limit : Nat)
  /-- one network task executed against an external collaborator -/
  | task
  /-- a call to `_flush_batch(batch)` -/
  | flushCall (batch : List Lead)
  /-- a call to `update_lead(id, ...)` -/
  | updateLead (id : String)
  /-- a call to `complete(result)` -/
  | complete
  /-- a call to `fail(msg)` -/
  | failed (msg : String)
deriving DecidableEq, Repr

/-- Python slice `xs[-n:]`: the last `n` elements (all of `xs` when
`n ≥ xs.length`). -/
def lastN {α : Type} (n : Nat) (l : List α) : List α :=
  l.drop (l.length - n)

/-- Extract the `processed` argument of every `update_progress` call of a
trace, in call order. -/
def progressValues (evs : List Event) : List Nat :=
  evs.filterMap fun e =>
    match e with
    | Event.progress p _ _ => some p
    | _ => none

/-- Extract every `update_progress` call of a trace as a snapshot, in call
order. -/
def progressReports (evs : List Event) : List ProgressSnapshot :=
  evs.filterMap fun e =>
    match e with
    | Event.progress p t m => some ⟨p, t, m⟩
    | _ => none

/-- Extract the batch argument of every `_flush_batch` call of a trace, in
call order. -/
def flushBatches (evs : List Event) : List (List Lead) :=
  evs.filterMap fun e =>
    match e with
    | Event.flushCall b => some b
    | _ => none

/-! ### base.py: SupabaseWorkerBase -/

/-- `PAGE_SIZE = 5000` (`base.py` line 75). -/
def PAGE_SIZE : Nat := 5000

/-- `update_progress` (`base.py` lines 32-38): a PostgREST `update` sets the
`progress` column to the freshly built dict, replacing the previous value
wholesale.  The call is given as the triple `(processed, total, extra)`. -/
def update_progress (j : JobRecord) (call : Nat × Nat × List (String × Nat)) :
    JobRecord :=
  { j with progress := ⟨call.1, call.2.1, call.2.2⟩ }

/-- `fail` (`base.py` lines 159-166): set `status` to `"failed"`, store the
error message truncated to 2000 characters, stamp `completed_at`. -/
def fail (j : JobRecord) (error : String) : JobRecord :=
  { j with status := "failed", errorMsg := some (error.take 2000),
           completedAt := true }

/-- `complete` (`base.py` lines 149-157): set `status` to `"completed"`,
stamp `completed_at`, rewrite `progress` from the remembered
`_processed`/`_total` counters (metrics are not carried over). -/
def complete (j : JobRecord) (processed total : Nat) : JobRecord :=
  { j with status := "completed", completedAt := true,
           progress := ⟨processed, total, []⟩ }

/-- Modelled from the spec: the Job Lifecycle Controller that invokes a
worker's `run()` is not among the sources (`base.py` line 168-170 only
declares `run` as abstract); per §4.7 and §7 of the spec it "wraps the
worker's body" and records any uncaught error "as the job's terminal failure
with a truncated message" via `fail`.  The body returns the job state it
produced together with `some msg` when it ended in an uncaught error, `none`
on normal return. -/
def runJob (j : JobRecord) (body : JobRecord → JobRecord × Option String) :
    JobRecord :=
  match body j with
  | (j', some e) => fail j' e
  | (j', none) => j'

/-- The pagination loop of `get_leads` (`base.py` lines 75-121), accumulator
result.  `rows` is the ordered list of rows matching the query's filters;
`(rows.drop offset).take batchSize` is the store's answer to
`range(offset, offset＋batchSize－1)`.  The loop is given as structural
recursion on a fuel argument; every continuing iteration appends a full page
of at least one row, so `limit ＋ 1` units of fuel (used by the wrapper
below) always suffice, see `get_leads_go_fuel_irrelevant`. -/
def get_leads_go : Nat → List Lead → Nat → List Lead → Nat → List Lead
  | 0, _, _, acc, _ => acc
  | fuel + 1, rows, limit, acc, offset =>
    if acc.length < limit then
      let batchSize := min PAGE_SIZE (limit - acc.length)
      let batch := (rows.drop offset).take batchSize
      if batch.length < batchSize then
        acc ++ batch
      else
        get_leads_go fuel rows limit (acc ++ batch) (offset + batchSize)
    else
      acc

/-- `get_leads` (`base.py` lines 57-121): run the pagination loop from an
empty accumulator and offset 0, truncate to `limit`. -/
def get_leads (rows : List Lead) (limit : Nat) : List Lead :=
  (get_leads_go (limit + 1) rows limit [] 0).take limit

/-- Instrumented variant of the same loop recording, for each executed
`range` request, the pair `(offset, batchSize)` it was issued with. -/
def get_leads_pages_go : Nat → List Lead → Nat → List Lead → Nat →
    List (Nat × Nat)
  | 0, _, _, _, _ => []
  | fuel + 1, rows, limit, acc, offset =>
    if acc.length < limit then
      let batchSize := min PAGE_SIZE (limit - acc.length)
      let batch := (rows.drop offset).take batchSize
      if batch.length < batchSize then
        [(offset, batchSize)]
      else
        (offset, batchSize) ::
          get_leads_pages_go fuel rows limit (acc ++ batch) (offset + batchSize)
    else
      []

/-- The `(offset, batchSize)` of every page request a `get_leads` call
issues, in order. -/
def get_leads_pages (rows : List Lead) (limit : Nat) : List (Nat × Nat) :=
  get_leads_pages_go (limit + 1) rows limit [] 0

/-! ### scrape_google_maps.py: ScrapeGoogleMapsWorker -/

/-- `BATCH_SIZE = 50` (`scrape_google_maps.py` line 30). -/
def BATCH_SIZE : Nat := 50

/-- Error message of `scrape_google_maps.py` line 42. -/
def scrapeNoKeyMsg : String := "RapidAPI Maps Data API key not configured"

/-- Error message of `scrape_google_maps.py` line 48 (an f-string over the
locations file path). -/
def scrapeNoLocationsMsg (locationsFile : String) : String :=
  "No locations loaded from " ++ locationsFile

/-- The dedup step of the completion handler (`scrape_google_maps.py` lines
90-96): read the lead's `place_id`; if it is non-empty and already seen,
drop the lead (`continue`); otherwise record the key (when non-empty) and
append the lead to `all_leads`.  Returns the new seen set, the new buffer
and whether the lead was accepted. -/
def offer (seen : List String) (buf : List Lead) (lead : Lead) :
    List String × List Lead × Bool :=
  if lead.placeId ≠ "" ∧ lead.placeId ∈ seen then
    (seen, buf, false)
  else
    ((if lead.placeId ≠ "" then lead.placeId :: seen else seen),
     buf ++ [lead], true)

/-- Mutable state of one `ScrapeGoogleMapsWorker.run`, together with the
trace of events it has emitted. -/
structure ScrapeState where
  seen : List String
  buf : List Lead
  searchesDone : Nat
  events : List Event
deriving DecidableEq, Repr

/-- Handling of one lead inside the completion handler
(`scrape_google_maps.py` lines 90-103): dedup-offer it; on acceptance, if
the buffer length reached a multiple of `BATCH_SIZE`, flush the last
`BATCH_SIZE` leads and report progress with the `searches` and
`total_searches` metrics. -/
def scrapeAcceptLead (totalSearches maxLeads : Nat) (st : ScrapeState)
    (lead : Lead) : ScrapeState :=
  match offer st.seen st.buf lead with
  | (seen', buf', accepted) =>
    if accepted ∧ buf'.length % BATCH_SIZE = 0 then
      { st with
        seen := seen'
        buf := buf'
        events := st.events ++
          [Event.flushCall (lastN BATCH_SIZE buf'),
           Event.progress buf'.length maxLeads
             [("searches", st.searchesDone), ("total_searches", totalSearches)]] }
    else
      { st with seen := seen', buf := buf' }

/-- Handling of one completed search future (`scrape_google_maps.py` lines
86-108): bump `searches_done`, then on success fold every returned lead
through `scrapeAcceptLead`; a raised search error is only logged. -/
def scrapeSearchStep (totalSearches maxLeads : Nat) (st : ScrapeState)
    (outcome : Except String (List Lead)) : ScrapeState :=
  let st1 := { st with searchesDone := st.searchesDone + 1 }
  match outcome with
  | Except.error _ => st1
  | Except.ok leads => leads.foldl (scrapeAcceptLead totalSearches maxLeads) st1

/-- The search-processing loops of `run` (`scrape_google_maps.py` lines
59-110) flattened over the sequence of search outcomes the completion
handler observes, in completion order: stop consuming outcomes as soon as
the buffer holds `maxLeads` leads (the `break`s at lines 60-61 and 107-108
and the loop guard at line 73), otherwise process the next outcome. -/
def scrapeLoop (totalSearches maxLeads : Nat) (st : ScrapeState) :
    List (Except String (List Lead)) → ScrapeState
  | [] => st
  | o :: rest =>
    if maxLeads ≤ st.buf.length then st
    else scrapeLoop totalSearches maxLeads
      (scrapeSearchStep totalSearches maxLeads st o) rest

/-- The remainder flush of `run` (`scrape_google_maps.py` lines 112-115):
when `len(all_leads) % BATCH_SIZE` is positive, flush exactly the last
`remaining` leads once. -/
def scrapeFlushRemainder (st : ScrapeState) : ScrapeState :=
  if 0 < st.buf.length % BATCH_SIZE then
    { st with events := st.events ++
        [Event.flushCall (lastN (st.buf.length % BATCH_SIZE) st.buf)] }
  else st

/-- The tail of `run` (`scrape_google_maps.py` lines 117-123): final
progress report `update_progress(len(all_leads), len(all_leads))` (no
metric keywords) followed by `complete(...)`. -/
def scrapeFinish (st : ScrapeState) : ScrapeState :=
  { st with events := st.events ++
      [Event.progress st.buf.length st.buf.length [], Event.complete] }

/-- `ScrapeGoogleMapsWorker.run` (`scrape_google_maps.py` lines 34-124).
`apiKey` is the `get_api_key("rapidapi_maps")` answer, `locations` the rows
`_load_locations` parsed from the CSV, `outcomes` the search results in
completion order.  Returns the final state with its full event trace:
missing key / empty locations fail immediately; otherwise run the loop,
flush any non-empty remainder, report final progress and complete. -/
def scrapeRunFull (apiKey : Option String) (locationsFile : String)
    (keywords : List String) (locations : List Location) (maxLeads : Nat)
    (outcomes : List (Except String (List Lead))) : ScrapeState :=
  match apiKey with
  | none => ⟨[], [], 0, [Event.failed scrapeNoKeyMsg]⟩
  | some _ =>
    if locations.isEmpty then
      ⟨[], [], 0, [Event.failed (scrapeNoLocationsMsg locationsFile)]⟩
    else
      scrapeFinish (scrapeFlushRemainder
        (scrapeLoop (keywords.length * locations.length) maxLeads
          ⟨[], [], 0, []⟩ outcomes))

/-- The outcome of one `write_leads_no_conflict` store write, driven by a
boolean oracle; a `False` oracle stands for the write raising. -/
def writeAttempt (ok : Bool) (rows : List Lead) : Except String (List Lead) :=
  if ok then Except.ok rows else Except.error "batch write error"

/-- The per-item fallback loop of `_flush_batch` (`scrape_google_maps.py`
lines 186-190): attempt one individual write per lead, swallowing each
failure (`except Exception: pass`).  Returns the successfully written
rows. -/
def flushIndividually (itemOk : Lead → Bool) : List Lead → List Lead
  | [] => []
  | l :: rest =>
    match writeAttempt (itemOk l) [l] with
    | Except.ok written => written ++ flushIndividually itemOk rest
    | Except.error _ => flushIndividually itemOk rest

/-- A record of what one `_flush_batch` call did: the batches handed to the
bulk write path, the leads attempted on the individual fallback path, and
the rows that ended up written. -/
structure FlushLog where
  bulkAttempts : List (List Lead)
  itemAttempts : List Lead
  persisted : List Lead
deriving DecidableEq, Repr

/-- `_flush_batch` (`scrape_google_maps.py` lines 178-190): return untouched
on an empty batch or falsy `campaign_id`; otherwise try one bulk write and,
if it raises, fall back to one individual write per item with per-item
failures swallowed.  The `Except` result makes "raises to the caller"
expressible: an escaping exception would be an `Except.error`. -/
def flush_batch (campaignId : Option String) (bulkOk : Bool)
    (itemOk : Lead → Bool) (batch : List Lead) : Except String FlushLog :=
  if batch = [] ∨ campaignId.getD "" = "" then
    Except.ok ⟨[], [], []⟩
  else
    match writeAttempt bulkOk batch with
    | Except.ok written => Except.ok ⟨[batch], [], written⟩
    | Except.error _ =>
      Except.ok ⟨[batch], batch, flushIndividually itemOk batch⟩

/-! ### clean_leads.py: CleanLeadsWorker -/

/-- Mutable state of one `CleanLeadsWorker.run` loop, with its event trace. -/
structure CleanState where
  processed : Nat
  valid : Nat
  invalid : Nat
  events : List Event
deriving DecidableEq, Repr

/-- Handling of one completed validation future (`clean_leads.py` lines
71-99): bump `processed`; on a returned boolean, bump `valid`/`invalid` and
write the lead's `enrichment_status`; on a raised error, bump `invalid`
only; finally report progress every 50 completions.  The completion is the
pair of the future's lead and its outcome (`Except` for a raised error). -/
def cleanStep (total : Nat) (st : CleanState)
    (c : Lead × Except String Bool) : CleanState :=
  let processed := st.processed + 1
  let st1 :=
    match c.2 with
    | Except.ok true =>
      { st with
        processed := processed
        valid := st.valid + 1
        events := st.events ++ [Event.updateLead c.1.id] }
    | Except.ok false =>
      { st with
        processed := processed
        invalid := st.invalid + 1
        events := st.events ++ [Event.updateLead c.1.id] }
    | Except.error _ =>
      { st with processed := processed, invalid := st.invalid + 1 }
  if processed % 50 = 0 then
    { st1 with events := st1.events ++
        [Event.progress processed total
          [("valid", st1.valid), ("invalid", st1.invalid)]] }
  else
    st1

/-- `CleanLeadsWorker.run` (`clean_leads.py` lines 26-108).  `fetched` is
the `get_leads` answer for the campaign (the store and the HTTP validator
are external, so both are inputs); `completions` lists the validation
futures in the order `as_completed` yields them.  No leads: complete at
once.  Otherwise report 0/total, process every completion, report final
counts and complete. -/
def cleanLeadsRun (maxLeads : Nat) (fetched : List Lead)
    (completions : List (Lead × Except String Bool)) : List Event :=
  if fetched = [] then
    [Event.fetch maxLeads, Event.complete]
  else
    let total := fetched.length
    let tasks := completions.map fun _ => Event.task
    let st := completions.foldl (cleanStep total) ⟨0, 0, 0, []⟩
    [Event.fetch maxLeads, Event.progress 0 total []] ++ tasks ++ st.events ++
      [Event.progress st.processed total
        [("valid", st.valid), ("invalid", st.invalid)],
       Event.complete]

/-! ### anymail_find_emails.py: AnymailFindEmailsWorker -/

/-- Error message of `anymail_find_emails.py` line 35. -/
def anymailNoKeyMsg : String := "Anymail Finder API key not configured"

/-- A non-`None` answer of `_find_email` (`anymail_find_emails.py` lines
136-143). -/
structure AnymailResult where
  email : String := ""
  emailStatus : String := ""
  name : String := ""
  title : String := ""
  linkedin : String := ""
deriving DecidableEq, Repr

/-- Mutable state of one `AnymailFindEmailsWorker.run` loop, with its event
trace. -/
structure AnymailState where
  processed : Nat
  found : Nat
  creditsUsed : Nat
  events : List Event
deriving DecidableEq, Repr

/-- Handling of one lead in the sequential enrichment loop
(`anymail_find_emails.py` lines 58-98): bump `processed`; take the lead's
website (falling back to its domain); if no root domain can be extracted,
`continue` — which also skips the cadence report; otherwise call the API
(one task), and when it returns an email, update the lead, bump `found` and
charge 2 credits for `valid`/`accept_all` statuses; finally report progress
every 10 leads.  `extractDomain` abstracts `_extract_domain` (a pure
`urlparse` helper) and the lead's paired `Option AnymailResult` abstracts
the API answer. -/
def anymailStep (total : Nat) (extractDomain : String → Option String)
    (st : AnymailState) (c : Lead × Option AnymailResult) : AnymailState :=
  let processed := st.processed + 1
  let st1 := { st with processed := processed }
  let website := if c.1.companyWebsite ≠ "" then c.1.companyWebsite else c.1.domain
  match extractDomain website with
  | none => st1
  | some _ =>
    let st2 := { st1 with events := st1.events ++ [Event.task] }
    let st3 :=
      match c.2 with
      | some r =>
        if r.email ≠ "" then
          { st2 with
            found := st2.found + 1
            creditsUsed := st2.creditsUsed +
              (if r.emailStatus = "valid" ∨ r.emailStatus = "accept_all"
               then 2 else 0)
            events := st2.events ++ [Event.updateLead c.1.id] }
        else st2
      | none => st2
    if processed % 10 = 0 then
      { st3 with events := st3.events ++
          [Event.progress processed total
            [("found", st3.found), ("credits_used", st3.creditsUsed)]] }
    else
      st3

/-- The lead filter of `anymail_find_emails.py` line 45: keep leads with a
truthy `company_website` or `domain`. -/
def anymailEligible (fetched : List Lead) : List Lead :=
  fetched.filter fun l => l.companyWebsite ≠ "" ∨ l.domain ≠ ""

/-- `AnymailFindEmailsWorker.run` (`anymail_find_emails.py` lines 26-106).
Missing API key: fail immediately, before any fetch, task or report.
Otherwise fetch, filter to leads with a website or domain, and when any
remain report 0/total, run the sequential loop (`results` pairs each lead
with its API answer) and finish with a final report and `complete`. -/
def anymailRun (apiKey : Option String) (maxLeads : Nat)
    (extractDomain : String → Option String) (fetched : List Lead)
    (results : List (Option AnymailResult)) : List Event :=
  match apiKey with
  | none => [Event.failed anymailNoKeyMsg]
  | some _ =>
    let leads := anymailEligible fetched
    if leads = [] then
      [Event.fetch maxLeads, Event.complete]
    else
      let total := leads.length
      let st := (leads.zip results).foldl
        (anymailStep total extractDomain) ⟨0, 0, 0, []⟩
      [Event.fetch maxLeads, Event.progress 0 total []] ++ st.events ++
        [Event.progress st.processed total
          [("found", st.found), ("credits_used", st.creditsUsed)],
         Event.complete]

/-! ### Lemmas about the pagination loop -/

theorem get_leads_go_stop (fuel : Nat) (rows : List Lead) (limit : Nat)
    (acc : List Lead) (offset : Nat) (h : ¬ acc.length < limit) :
    get_leads_go (fuel + 1) rows limit acc offset = acc := by
  simp [get_leads_go, h]

theorem get_leads_go_short (fuel : Nat) (rows : List Lead) (limit : Nat)
    (acc : List Lead) (offset : Nat) (hlt : acc.length < limit)
    (hshort : ((rows.drop offset).take (min PAGE_SIZE (limit - acc.length))).length <
      min PAGE_SIZE (limit - acc.length)) :
    get_leads_go (fuel + 1) rows limit acc offset =
      acc ++ (rows.drop offset).take (min PAGE_SIZE (limit - acc.length)) := by
  simp only [get_leads_go]
  rw [if_pos hlt, if_pos hshort]

theorem get_leads_go_cont (fuel : Nat) (rows : List Lead) (limit : Nat)
    (acc : List Lead) (offset : Nat) (hlt : acc.length < limit)
    (hfull : ¬ ((rows.drop offset).take (min PAGE_SIZE (limit - acc.length))).length <
      min PAGE_SIZE (limit - acc.length)) :
    get_leads_go (fuel + 1) rows limit acc offset =
      get_leads_go fuel rows limit
        (acc ++ (rows.drop offset).take (min PAGE_SIZE (limit - acc.length)))
        (offset + min PAGE_SIZE (limit - acc.length)) := by
  simp only [get_leads_go]
  rw [if_pos hlt, if_neg hfull]

theorem page_batch_full {rows : List Lead} {offset bs : Nat}
    (h : ¬ ((rows.drop offset).take bs).length < bs) :
    ((rows.drop offset).take bs).length = bs := by
  have := List.length_take_le bs (rows.drop offset)
  omega

theorem page_batch_pos {acc : List Lead} {limit : Nat} (hlt : acc.length < limit) :
    0 < min PAGE_SIZE (limit - acc.length) := by
  have h5 : PAGE_SIZE = 5000 := rfl
  omega

/-- Every continuing iteration of the pagination loop appends a full page of
at least one row, so any two fuel values exceeding `limit - acc.length` give
the same result: the fuel-0 fallback of the embedding is unreachable from
the `get_leads` wrapper, which passes `limit + 1`. -/
theorem get_leads_go_fuel_irrelevant (f₁ : Nat) :
    ∀ (f₂ : Nat) (rows : List Lead) (limit : Nat) (acc : List Lead) (offset : Nat),
      limit - acc.length < f₁ → limit - acc.length < f₂ →
      get_leads_go f₁ rows limit acc offset = get_leads_go f₂ rows limit acc offset := by
  induction f₁ with
  | zero => intro f₂ rows limit acc offset h₁ h₂; omega
  | succ f ih =>
    intro f₂ rows limit acc offset h₁ h₂
    match f₂, h₂ with
    | f₂ + 1, h₂ =>
      by_cases hlt : acc.length < limit
      · by_cases hshort : ((rows.drop offset).take (min PAGE_SIZE (limit - acc.length))).length <
          min PAGE_SIZE (limit - acc.length)
        · rw [get_leads_go_short f rows limit acc offset hlt hshort,
              get_leads_go_short f₂ rows limit acc offset hlt hshort]
        · rw [get_leads_go_cont f rows limit acc offset hlt hshort,
              get_leads_go_cont f₂ rows limit acc offset hlt hshort]
          have hfull := page_batch_full hshort
          have hpos := page_batch_pos hlt
          apply ih
          · simp only [List.length_append]; omega
          · simp only [List.length_append]; omega
      · rw [get_leads_go_stop f rows limit acc offset hlt,
            get_leads_go_stop f₂ rows limit acc offset hlt]

/-- Under the loop invariant (`offset` equals the rows fetched so far and the
accumulator is exactly the first `offset` rows), the loop computes a prefix
of the store: its result truncated to `limit` is `rows.take limit`. -/
theorem get_leads_go_take (fuel : Nat) :
    ∀ (rows acc : List Lead) (offset limit : Nat),
      limit - acc.length < fuel → offset = acc.length → acc = rows.take offset →
      (get_leads_go fuel rows limit acc offset).take limit = rows.take limit := by
  induction fuel with
  | zero => intro rows acc offset limit hf _ _; omega
  | succ f ih =>
    intro rows acc offset limit hf hoff hacc
    by_cases hlt : acc.length < limit
    · by_cases hshort : ((rows.drop offset).take (min PAGE_SIZE (limit - acc.length))).length <
        min PAGE_SIZE (limit - acc.length)
      · rw [get_leads_go_short f rows limit acc offset hlt hshort]
        have hall : (rows.drop offset).length ≤ min PAGE_SIZE (limit - acc.length) := by
          have hl := List.length_take (min PAGE_SIZE (limit - acc.length)) (rows.drop offset)
          omega
        rw [List.take_of_length_le hall, hacc, List.take_append_drop]
      · rw [get_leads_go_cont f rows limit acc offset hlt hshort]
        have hfull := page_batch_full hshort
        have hpos := page_batch_pos hlt
        apply ih
        · simp only [List.length_append]; omega
        · simp only [List.length_append]; omega
        · rw [List.take_add, ← hacc]
    · rw [get_leads_go_stop f rows limit acc offset hlt, hacc, List.take_take]
      have hmin : min limit offset = limit := by omega
      rw [hmin]

/-- `get_leads` returns exactly the first `limit` matching rows of the
store: no duplicates, no omissions, truncated to the limit. -/
theorem get_leads_eq_take (rows : List Lead) (limit : Nat) :
    get_leads rows limit = rows.take limit :=
  get_leads_go_take (limit + 1) rows [] 0 limit (by omega) rfl rfl

theorem get_leads_pages_go_stop (fuel : Nat) (rows : List Lead) (limit : Nat)
    (acc : List Lead) (offset : Nat) (h : ¬ acc.length < limit) :
    get_leads_pages_go (fuel + 1) rows limit acc offset = [] := by
  simp only [get_leads_pages_go]
  rw [if_neg h]

theorem get_leads_pages_go_short (fuel : Nat) (rows : List Lead) (limit : Nat)
    (acc : List Lead) (offset : Nat) (hlt : acc.length < limit)
    (hshort : ((rows.drop offset).take (min PAGE_SIZE (limit - acc.length))).length <
      min PAGE_SIZE (limit - acc.length)) :
    get_leads_pages_go (fuel + 1) rows limit acc offset =
      [(offset, min PAGE_SIZE (limit - acc.length))] := by
  simp only [get_leads_pages_go]
  rw [if_pos hlt, if_pos hshort]

theorem get_leads_pages_go_cont (fuel : Nat) (rows : List Lead) (limit : Nat)
    (acc : List Lead) (offset : Nat) (hlt : acc.length < limit)
    (hfull : ¬ ((rows.drop offset).take (min PAGE_SIZE (limit - acc.length))).length <
      min PAGE_SIZE (limit - acc.length)) :
    get_leads_pages_go (fuel + 1) rows limit acc offset =
      (offset, min PAGE_SIZE (limit - acc.length)) ::
        get_leads_pages_go fuel rows limit
          (acc ++ (rows.drop offset).take (min PAGE_SIZE (limit - acc.length)))
          (offset + min PAGE_SIZE (limit - acc.length)) := by
  simp only [get_leads_pages_go]
  rw [if_pos hlt, if_neg hfull]

/-- Characterization of the page-request trace: under the loop invariant,
the `i`-th request starts at offset `offset ＋ (sum of the previous request
sizes)` — i.e. the loop advances its offset by the cumulative rows fetched
so far — and requests `min PAGE_SIZE (limit − rows accumulated so far)`
rows. -/
theorem get_leads_pages_go_spec (fuel : Nat) :
    ∀ (rows acc : List Lead) (offset limit i : Nat),
      i < (get_leads_pages_go fuel rows limit acc offset).length →
      (get_leads_pages_go fuel rows limit acc offset)[i]? =
        some (offset + (((get_leads_pages_go fuel rows limit acc offset).take i).map Prod.snd).sum,
          min PAGE_SIZE
            (limit - (acc.length +
              (((get_leads_pages_go fuel rows limit acc offset).take i).map Prod.snd).sum))) := by
  induction fuel with
  | zero =>
    intro rows acc offset limit i h
    simp only [get_leads_pages_go, List.length_nil] at h
    omega
  | succ f ih =>
    intro rows acc offset limit i h
    by_cases hlt : acc.length < limit
    · by_cases hshort : ((rows.drop offset).take (min PAGE_SIZE (limit - acc.length))).length <
        min PAGE_SIZE (limit - acc.length)
      · rw [get_leads_pages_go_short f rows limit acc offset hlt hshort] at h ⊢
        have hi : i = 0 := by simp at h; omega
        subst hi
        simp
      · rw [get_leads_pages_go_cont f rows limit acc offset hlt hshort] at h ⊢
        have hfull := page_batch_full hshort
        cases i with
        | zero => simp
        | succ j =>
          simp only [List.length_cons, Nat.succ_lt_succ_iff] at h
          have hrec := ih rows (acc ++ (rows.drop offset).take (min PAGE_SIZE (limit - acc.length)))
            (offset + min PAGE_SIZE (limit - acc.length)) limit j h
          simp only [List.getElem?_cons_succ, List.take_succ_cons, List.map_cons,
            List.sum_cons, List.length_append, hfull] at hrec ⊢
          rw [hrec]
          congr 2
          · omega
          · omega
    · rw [get_leads_pages_go_stop f rows limit acc offset hlt] at h
      simp at h

/-- A concrete store of nine matching rows used by concrete instances. -/
def demoRows : List Lead :=
  [⟨"r1", "", "", ""⟩, ⟨"r2", "", "", ""⟩, ⟨"r3", "", "", ""⟩,
   ⟨"r4", "", "", ""⟩, ⟨"r5", "", "", ""⟩, ⟨"r6", "", "", ""⟩,
   ⟨"r7", "", "", ""⟩, ⟨"r8", "", "", ""⟩, ⟨"r9", "", "", ""⟩]

/-- C2, counterexample: the claim says each page request has a fixed size
independent of the caller's limit, but on the same nine-row store
`get_leads` with `limit = 3` issues one request of 3 rows while `limit = 2`
issues one request of 2 rows — the requested size is
`min(PAGE_SIZE, limit − accumulated)` (`base.py` line 80), which depends on
the limit and here differs from the fixed `PAGE_SIZE`. -/
theorem get_leads_page_size_C2_counterexample :
    (get_leads_pages demoRows 3).map Prod.snd = [3] ∧
    (get_leads_pages demoRows 2).map Prod.snd = [2] ∧
    (3 : Nat) ≠ 2 ∧ (3 : Nat) ≠ PAGE_SIZE := by
  decide

/-- C2, amended: every page request of `get_leads` asks for
`min PAGE_SIZE (limit − rows accumulated so far)` rows — capped by the
fixed `PAGE_SIZE = 5000`, but also by how many rows are still missing
towards the caller's `limit`, so the size does depend on the limit once
fewer than `PAGE_SIZE` rows remain to reach it. -/
theorem get_leads_page_size_C2_amended (rows : List Lead) (limit i : Nat)
    (h : i < (get_leads_pages rows limit).length) :
    ((get_leads_pages rows limit)[i]?).map Prod.snd =
      some (min PAGE_SIZE
        (limit - (((get_leads_pages rows limit).take i).map Prod.snd).sum)) := by
  have hspec := get_leads_pages_go_spec (limit + 1) rows [] 0 limit i h
  simp only [get_leads_pages] at hspec ⊢
  rw [hspec]
  simp

theorem get_leads_page_size_C2_amended_witness :
    0 < (get_leads_pages demoRows 3).length ∧
    ((get_leads_pages demoRows 3)[0]?).map Prod.snd =
      some (min PAGE_SIZE
        (3 - (((get_leads_pages demoRows 3).take 0).map Prod.snd).sum)) :=
  ⟨by decide, get_leads_page_size_C2_amended demoRows 3 0 (by decide)⟩

/-- C3: `get_leads` returns exactly the first `limit` rows of the matching
set (hence at most `limit` records, stopping on a short page or on reaching
the limit), returns the empty list on an empty scope rather than an error,
and the `i`-th page request starts at an offset equal to the cumulative
rows fetched by earlier (necessarily full) pages. -/
theorem get_leads_C3 (rows : List Lead) (limit i : Nat)
    (h : i < (get_leads_pages rows limit).length) :
    get_leads rows limit = rows.take limit ∧
    (get_leads rows limit).length ≤ limit ∧
    get_leads [] limit = [] ∧
    ((get_leads_pages rows limit)[i]?).map Prod.fst =
      some ((((get_leads_pages rows limit).take i).map Prod.snd).sum) := by
  refine ⟨get_leads_eq_take rows limit, ?_, ?_, ?_⟩
  · rw [get_leads_eq_take]
    simp only [List.length_take]
    omega
  · rw [get_leads_eq_take, List.take_nil]
  · have hspec := get_leads_pages_go_spec (limit + 1) rows [] 0 limit i h
    simp only [get_leads_pages] at hspec ⊢
    rw [hspec]
    simp

theorem get_leads_C3_witness :
    0 < (get_leads_pages demoRows 7).length ∧
    (get_leads demoRows 7 = demoRows.take 7 ∧
     (get_leads demoRows 7).length ≤ 7 ∧
     get_leads [] 7 = [] ∧
     ((get_leads_pages demoRows 7)[0]?).map Prod.fst =
       some ((((get_leads_pages demoRows 7).take 0).map Prod.snd).sum)) :=
  ⟨by decide, get_leads_C3 demoRows 7 0 (by decide)⟩

/-! ### Lemmas about the dedup accumulator -/

/-- Two accepted leads do not share one non-empty dedup key. -/
def dedupOk (a b : Lead) : Prop := a.placeId = "" ∨ a.placeId ≠ b.placeId

instance (a b : Lead) : Decidable (dedupOk a b) := by
  unfold dedupOk
  infer_instance

/-- One `offer` step as a state transformer: the seen set and the buffer
after offering one lead. -/
def offerStep (st : List String × List Lead) (l : Lead) :
    List String × List Lead :=
  match offer st.1 st.2 l with
  | (seen', buf', _) => (seen', buf')

/-- A whole sequence of `offer` calls starting from the empty seen set and
empty buffer, as executed by the completion handler of the map-scrape
worker. -/
def runOffers (leads : List Lead) : List String × List Lead :=
  leads.foldl offerStep ([], [])

/-- Invariant tying the seen set to the buffer: every accepted non-empty
key is recorded in the seen set, and the buffer holds no duplicate
non-empty key. -/
def OfferInv (st : List String × List Lead) : Prop :=
  (∀ a ∈ st.2, a.placeId ≠ "" → a.placeId ∈ st.1) ∧
    List.Pairwise dedupOk st.2

theorem offer_reject {seen : List String} {buf : List Lead} {l : Lead}
    (hk : l.placeId ≠ "") (hmem : l.placeId ∈ seen) :
    offer seen buf l = (seen, buf, false) := by
  simp only [offer]
  rw [if_pos ⟨hk, hmem⟩]

theorem offer_accept {seen : List String} {buf : List Lead} {l : Lead}
    (h : ¬ (l.placeId ≠ "" ∧ l.placeId ∈ seen)) :
    offer seen buf l =
      ((if l.placeId ≠ "" then l.placeId :: seen else seen), buf ++ [l], true) := by
  simp only [offer]
  rw [if_neg h]

theorem offerStep_inv (st : List String × List Lead) (l : Lead)
    (h : OfferInv st) : OfferInv (offerStep st l) := by
  obtain ⟨hmem, hpair⟩ := h
  by_cases hrej : l.placeId ≠ "" ∧ l.placeId ∈ st.1
  · simp only [offerStep, offer_reject hrej.1 hrej.2]
    exact ⟨hmem, hpair⟩
  · simp only [offerStep, offer_accept hrej]
    constructor
    · intro a ha hk
      rcases List.mem_append.mp ha with hbuf | hl
      · have := hmem a hbuf hk
        by_cases hlk : l.placeId ≠ "" <;> simp [hlk, this]
      · have : a = l := by simpa using hl
        subst this
        simp [hk]
    · rw [List.pairwise_append]
      refine ⟨hpair, by simp, ?_⟩
      intro a ha b hb
      have : b = l := by simpa using hb
      subst this
      by_cases hak : a.placeId = ""
      · exact Or.inl hak
      · refine Or.inr ?_
        intro heq
        have hseen := hmem a ha hak
        rw [heq] at hseen hak
        exact hrej ⟨hak, hseen⟩

theorem runOffers_inv (leads : List Lead) : OfferInv (runOffers leads) := by
  have start : OfferInv ([], []) := ⟨by simp, by simp⟩
  rw [runOffers]
  generalize hst : (([], []) : List String × List Lead) = st at start
  clear hst
  induction leads generalizing st with
  | nil => exact start
  | cons l rest ih => exact ih _ (offerStep_inv st l start)

/-- C4: in the map-scrape dedup accumulator, no two accepted leads share a
non-empty `place_id`; offering a lead whose non-empty key is already seen
returns the state unchanged with `accepted = false`; and after any offer of
a lead with a non-empty key, a further offer of the same key is rejected. -/
theorem scrape_dedup_C4 (leads : List Lead) (seen : List String)
    (buf : List Lead) (l m m₂ : Lead)
    (hm : m.placeId ≠ "") (hmem : m.placeId ∈ seen)
    (hl : l.placeId ≠ "") (hsame : m₂.placeId = l.placeId) :
    List.Pairwise dedupOk (runOffers leads).2 ∧
    offer seen buf m = (seen, buf, false) ∧
    (offer (offer seen buf l).1 (offer seen buf l).2.1 m₂).2.2 = false := by
  refine ⟨(runOffers_inv leads).2, offer_reject hm hmem, ?_⟩
  by_cases hrej : l.placeId ≠ "" ∧ l.placeId ∈ seen
  · rw [offer_reject hrej.1 hrej.2]
    have hm₂ : m₂.placeId ≠ "" := by rw [hsame]; exact hl
    rw [offer_reject hm₂ (by rw [hsame]; exact hrej.2)]
  · rw [offer_accept hrej]
    have hm₂ : m₂.placeId ≠ "" := by rw [hsame]; exact hl
    have hmem₂ : m₂.placeId ∈ (if l.placeId ≠ "" then l.placeId :: seen else seen) := by
      rw [if_pos hl, hsame]
      simp
    rw [offer_reject hm₂ hmem₂]

theorem scrape_dedup_C4_witness :
    List.Pairwise dedupOk
      (runOffers [⟨"a", "p1", "", ""⟩, ⟨"b", "p2", "", ""⟩, ⟨"c", "p1", "", ""⟩]).2 ∧
    offer ["p9"] [] ⟨"d", "p9", "", ""⟩ = (["p9"], [], false) ∧
    (offer (offer ["p9"] [] ⟨"e", "p7", "", ""⟩).1
      (offer ["p9"] [] ⟨"e", "p7", "", ""⟩).2.1 ⟨"f", "p7", "", ""⟩).2.2 = false :=
  scrape_dedup_C4 [⟨"a", "p1", "", ""⟩, ⟨"b", "p2", "", ""⟩, ⟨"c", "p1", "", ""⟩]
    ["p9"] [] ⟨"e", "p7", "", ""⟩ ⟨"d", "p9", "", ""⟩ ⟨"f", "p7", "", ""⟩
    (by decide) (by decide) (by decide) (by decide)

/-! ### Lemmas about the batched sink -/

theorem flushIndividually_filter (itemOk : Lead → Bool) (batch : List Lead) :
    flushIndividually itemOk batch = batch.filter itemOk := by
  induction batch with
  | nil => rfl
  | cons l rest ih =>
    by_cases h : itemOk l
    · simp [flushIndividually, writeAttempt, h, ih]
    · simp [flushIndividually, writeAttempt, h, ih]

/-- C5: flushing a batch never raises to the caller — `flush_batch` returns
`Except.ok` on every input — and when the bulk write fails the sink records
exactly one individual write attempt per item of the batch (in order), with
each failing item swallowed so that precisely the items whose own write
succeeds are persisted. -/
theorem flush_batch_C5 (campaignId : Option String) (bulkOk : Bool)
    (itemOk : Lead → Bool) (batch : List Lead)
    (hne : batch ≠ []) (hcid : campaignId.getD "" ≠ "") :
    (∀ (cid₂ : Option String) (bulk₂ : Bool) (ok₂ : Lead → Bool)
       (batch₂ : List Lead), ∃ log,
       flush_batch cid₂ bulk₂ ok₂ batch₂ = Except.ok log) ∧
    (bulkOk = false →
      flush_batch campaignId bulkOk itemOk batch =
        Except.ok ⟨[batch], batch, batch.filter itemOk⟩) := by
  constructor
  · intro cid₂ bulk₂ ok₂ batch₂
    by_cases hguard : batch₂ = [] ∨ cid₂.getD "" = ""
    · exact ⟨⟨[], [], []⟩, by simp [flush_batch, hguard]⟩
    · by_cases hbulk : bulk₂
      · refine ⟨⟨[batch₂], [], batch₂⟩, ?_⟩
        simp [flush_batch, hguard, writeAttempt, hbulk]
      · refine ⟨⟨[batch₂], batch₂, flushIndividually ok₂ batch₂⟩, ?_⟩
        simp [flush_batch, hguard, writeAttempt, hbulk]
  · intro hfalse
    subst hfalse
    have hguard : ¬ (batch = [] ∨ campaignId.getD "" = "") := by
      simp [hne, hcid]
    simp [flush_batch, hguard, writeAttempt, flushIndividually_filter]

theorem flush_batch_C5_witness :
    ([⟨"a", "", "", ""⟩, ⟨"b", "", "", ""⟩] : List Lead) ≠ [] ∧
    (Option.getD (some "camp1") "" ≠ "") ∧
    ((∀ (cid₂ : Option String) (bulk₂ : Bool) (ok₂ : Lead → Bool)
        (batch₂ : List Lead), ∃ log,
        flush_batch cid₂ bulk₂ ok₂ batch₂ = Except.ok log) ∧
     (false = false →
       flush_batch (some "camp1") false (fun l => l.id = "a")
           [⟨"a", "", "", ""⟩, ⟨"b", "", "", ""⟩] =
         Except.ok ⟨[[⟨"a", "", "", ""⟩, ⟨"b", "", "", ""⟩]],
           [⟨"a", "", "", ""⟩, ⟨"b", "", "", ""⟩],
           List.filter (fun l => l.id = "a")
             [⟨"a", "", "", ""⟩, ⟨"b", "", "", ""⟩]⟩)) :=
  ⟨by decide, by decide,
   flush_batch_C5 (some "camp1") false (fun l => l.id = "a")
     [⟨"a", "", "", ""⟩, ⟨"b", "", "", ""⟩] (by decide) (by decide)⟩

/-! ### Lemmas about the map-scrape run -/

theorem progressValues_append (a b : List Event) :
    progressValues (a ++ b) = progressValues a ++ progressValues b := by
  simp [progressValues]

theorem progressReports_append (a b : List Event) :
    progressReports (a ++ b) = progressReports a ++ progressReports b := by
  simp [progressReports]

theorem flushBatches_append (a b : List Event) :
    flushBatches (a ++ b) = flushBatches a ++ flushBatches b := by
  simp [flushBatches]

theorem lastN_length {α : Type} {n : Nat} {l : List α} (h : n ≤ l.length) :
    (lastN n l).length = n := by
  simp only [lastN, List.length_drop]
  omega

theorem lastN_eq_drop {α : Type} (n : Nat) (l : List α) :
    lastN n l = l.drop (l.length - n) := rfl

theorem flatten_length_of_forall {K : Nat} :
    ∀ (ls : List (List Lead)), (∀ b ∈ ls, b.length = K) →
      ls.flatten.length = K * ls.length := by
  intro ls
  induction ls with
  | nil => intro _; simp
  | cons b rest ih =>
    intro h
    have hb := h b (by simp)
    have hr := ih fun x hx => h x (by simp [hx])
    simp [List.length_append, hb, hr, Nat.mul_succ, Nat.add_comm]

/-- Loop invariant of the map-scrape run: the flushed batches are exactly
the full `BATCH_SIZE`-chunks of the buffer so far (everything up to the
last complete multiple, in order), every flushed batch is full, and every
progress value reported so far is a multiple of `BATCH_SIZE` bounded by the
buffer length, with the reported values non-decreasing. -/
def ScrapeInv (st : ScrapeState) : Prop :=
  (flushBatches st.events).flatten =
      st.buf.take (st.buf.length - st.buf.length % BATCH_SIZE) ∧
  (∀ b ∈ flushBatches st.events, b.length = BATCH_SIZE) ∧
  (∀ x ∈ progressValues st.events, x ≤ st.buf.length ∧ x % BATCH_SIZE = 0) ∧
  List.Pairwise (fun a b => a ≤ b) (progressValues st.events)

theorem scrapeAcceptLead_reject (ts ml : Nat) (st : ScrapeState) (l : Lead)
    (hrej : l.placeId ≠ "" ∧ l.placeId ∈ st.seen) :
    scrapeAcceptLead ts ml st l = st := by
  simp only [scrapeAcceptLead, offer_reject hrej.1 hrej.2]
  simp

theorem take_chunk_extend {l : List Lead} {x : Lead}
    (hmod : (l.length + 1) % 50 = 0) :
    l.take (l.length - l.length % 50) ++ lastN 50 (l ++ [x]) = l ++ [x] := by
  have h2 : l.length - l.length % 50 = l.length + 1 - 50 := by omega
  rw [h2, lastN_eq_drop]
  have h3 : (l ++ [x]).length = l.length + 1 := by simp
  rw [h3]
  have h4 : l.take (l.length + 1 - 50) = (l ++ [x]).take (l.length + 1 - 50) :=
    (List.take_append_of_le_length (by omega)).symm
  rw [h4, List.take_append_drop]

theorem scrapeAcceptLead_accept_flush (ts ml : Nat) (st : ScrapeState) (l : Lead)
    (hrej : ¬ (l.placeId ≠ "" ∧ l.placeId ∈ st.seen))
    (hmod : (st.buf ++ [l]).length % BATCH_SIZE = 0) :
    scrapeAcceptLead ts ml st l =
      { st with
        seen := (if l.placeId ≠ "" then l.placeId :: st.seen else st.seen)
        buf := st.buf ++ [l]
        events := st.events ++
          [Event.flushCall (lastN BATCH_SIZE (st.buf ++ [l])),
           Event.progress (st.buf ++ [l]).length ml
             [("searches", st.searchesDone), ("total_searches", ts)]] } := by
  simp only [scrapeAcceptLead, offer_accept hrej]
  rw [if_pos (And.intro (by simp) hmod)]

theorem scrapeAcceptLead_accept_noflush (ts ml : Nat) (st : ScrapeState) (l : Lead)
    (hrej : ¬ (l.placeId ≠ "" ∧ l.placeId ∈ st.seen))
    (hmod : ¬ (st.buf ++ [l]).length % BATCH_SIZE = 0) :
    scrapeAcceptLead ts ml st l =
      { st with
        seen := (if l.placeId ≠ "" then l.placeId :: st.seen else st.seen)
        buf := st.buf ++ [l] } := by
  simp only [scrapeAcceptLead, offer_accept hrej]
  rw [if_neg (fun hc => hmod hc.2)]

theorem scrapeInv_accept (ts ml : Nat) (st : ScrapeState) (l : Lead)
    (h : ScrapeInv st) : ScrapeInv (scrapeAcceptLead ts ml st l) := by
  obtain ⟨hflat, hfull, hvals, hmono⟩ := h
  have hB : BATCH_SIZE = 50 := rfl
  have hlen : (st.buf ++ [l]).length = st.buf.length + 1 := by simp
  by_cases hrej : l.placeId ≠ "" ∧ l.placeId ∈ st.seen
  · rw [scrapeAcceptLead_reject ts ml st l hrej]
    exact ⟨hflat, hfull, hvals, hmono⟩
  · by_cases hmod : (st.buf ++ [l]).length % BATCH_SIZE = 0
    · rw [scrapeAcceptLead_accept_flush ts ml st l hrej hmod]
      unfold ScrapeInv
      dsimp only
      have hmod0 : (st.buf.length + 1) % 50 = 0 := by
        rw [hlen, hB] at hmod
        exact hmod
      have hfb2 : flushBatches
          [Event.flushCall (lastN BATCH_SIZE (st.buf ++ [l])),
           Event.progress (st.buf ++ [l]).length ml
             [("searches", st.searchesDone), ("total_searches", ts)]] =
          [lastN BATCH_SIZE (st.buf ++ [l])] := by
        simp [flushBatches]
      have hpv2 : progressValues
          [Event.flushCall (lastN BATCH_SIZE (st.buf ++ [l])),
           Event.progress (st.buf ++ [l]).length ml
             [("searches", st.searchesDone), ("total_searches", ts)]] =
          [(st.buf ++ [l]).length] := by
        simp [progressValues]
      refine ⟨?_, ?_, ?_, ?_⟩
      · rw [flushBatches_append, hfb2, List.flatten_append, hflat]
        simp only [List.flatten_cons, List.flatten_nil, List.append_nil]
        rw [hmod, Nat.sub_zero, List.take_length, hB]
        exact take_chunk_extend hmod0
      · intro b hb
        rw [flushBatches_append, hfb2] at hb
        rcases List.mem_append.mp hb with hold | hnew
        · exact hfull b hold
        · have hbe : b = lastN BATCH_SIZE (st.buf ++ [l]) := by simpa using hnew
          subst hbe
          exact lastN_length (by rw [hlen, hB]; omega)
      · intro x hx
        rw [progressValues_append, hpv2] at hx
        rcases List.mem_append.mp hx with hold | hnew
        · have hv := hvals x hold
          have hv1 := hv.1
          exact ⟨by rw [hlen]; omega, hv.2⟩
        · have hxe : x = (st.buf ++ [l]).length := by simpa using hnew
          subst hxe
          exact ⟨le_refl _, hmod⟩
      · rw [progressValues_append, hpv2, List.pairwise_append]
        refine ⟨hmono, by simp, ?_⟩
        intro a ha b hb
        have hbe : b = (st.buf ++ [l]).length := by simpa using hb
        subst hbe
        have ha1 := (hvals a ha).1
        rw [hlen]
        omega
    · rw [scrapeAcceptLead_accept_noflush ts ml st l hrej hmod]
      unfold ScrapeInv
      dsimp only
      rw [hlen, hB] at hmod
      refine ⟨?_, ?_, ?_, ?_⟩
      · simp only [hB] at hflat ⊢
        rw [hlen]
        have heq : st.buf.length + 1 - (st.buf.length + 1) % 50 =
            st.buf.length - st.buf.length % 50 := by omega
        rw [heq, List.take_append_of_le_length (by omega)]
        exact hflat
      · exact hfull
      · intro x hx
        have hv := hvals x hx
        have hv1 := hv.1
        exact ⟨by rw [hlen]; omega, hv.2⟩
      · exact hmono

theorem scrapeInv_foldl (ts ml : Nat) :
    ∀ (leads : List Lead) (st : ScrapeState), ScrapeInv st →
      ScrapeInv (leads.foldl (scrapeAcceptLead ts ml) st) := by
  intro leads
  induction leads with
  | nil => intro st h; exact h
  | cons l rest ih =>
    intro st h
    exact ih _ (scrapeInv_accept ts ml st l h)

theorem scrapeInv_search (ts ml : Nat) (st : ScrapeState)
    (o : Except String (List Lead)) (h : ScrapeInv st) :
    ScrapeInv (scrapeSearchStep ts ml st o) := by
  cases o with
  | error e => exact h
  | ok leads => exact scrapeInv_foldl ts ml leads _ h

theorem scrapeInv_loop (ts ml : Nat) :
    ∀ (outs : List (Except String (List Lead))) (st : ScrapeState),
      ScrapeInv st → ScrapeInv (scrapeLoop ts ml st outs) := by
  intro outs
  induction outs with
  | nil => intro st h; exact h
  | cons o rest ih =>
    intro st h
    by_cases hstop : ml ≤ st.buf.length
    · simp only [scrapeLoop, if_pos hstop]
      exact h
    · simp only [scrapeLoop, if_neg hstop]
      exact ih _ (scrapeInv_search ts ml st o h)

theorem scrapeInv_init : ScrapeInv ⟨[], [], 0, []⟩ := by
  refine ⟨?_, ?_, ?_, ?_⟩ <;> simp [flushBatches, progressValues]

theorem scrapeRunFull_some (key locFile : String) (keywords : List String)
    (locations : List Location) (maxLeads : Nat)
    (outcomes : List (Except String (List Lead))) (hloc : locations ≠ []) :
    scrapeRunFull (some key) locFile keywords locations maxLeads outcomes =
      scrapeFinish (scrapeFlushRemainder
        (scrapeLoop (keywords.length * locations.length) maxLeads
          ⟨[], [], 0, []⟩ outcomes)) := by
  cases locations with
  | nil => exact absurd rfl hloc
  | cons a rest => rfl

theorem scrapeFlushRemainder_buf (st : ScrapeState) :
    (scrapeFlushRemainder st).buf = st.buf := by
  unfold scrapeFlushRemainder
  split <;> rfl

theorem scrapeFinish_buf (st : ScrapeState) :
    (scrapeFinish st).buf = st.buf := rfl

theorem flushBatches_scrapeFinish (st : ScrapeState) :
    flushBatches (scrapeFinish st).events = flushBatches st.events := by
  simp [scrapeFinish, flushBatches_append, flushBatches]

/-- After the remainder flush, the flushed batches concatenate to exactly
the whole buffer, all of them are full except possibly the last, none is
empty or oversized, and their number is `⌈buf.length / BATCH_SIZE⌉`. -/
theorem scrapeFlushRemainder_spec (st : ScrapeState) (h : ScrapeInv st) :
    (flushBatches (scrapeFlushRemainder st).events).flatten = st.buf ∧
    (∀ b ∈ (flushBatches (scrapeFlushRemainder st).events).dropLast,
      b.length = BATCH_SIZE) ∧
    (∀ b ∈ flushBatches (scrapeFlushRemainder st).events,
      b ≠ [] ∧ b.length ≤ BATCH_SIZE) ∧
    (flushBatches (scrapeFlushRemainder st).events).length =
      st.buf.length / BATCH_SIZE +
        (if st.buf.length % BATCH_SIZE = 0 then 0 else 1) := by
  obtain ⟨hflat, hfull, _, _⟩ := h
  have hB : BATCH_SIZE = 50 := rfl
  have hcount : 50 * (flushBatches st.events).length =
      st.buf.length - st.buf.length % 50 := by
    have hj := flatten_length_of_forall (flushBatches st.events) hfull
    rw [hflat] at hj
    simp only [List.length_take, hB] at hj
    have hmin : min (st.buf.length - st.buf.length % 50) st.buf.length =
        st.buf.length - st.buf.length % 50 := by omega
    rw [hmin] at hj
    omega
  by_cases hrem : 0 < st.buf.length % BATCH_SIZE
  · have hre : scrapeFlushRemainder st =
        { st with events := st.events ++
            [Event.flushCall (lastN (st.buf.length % BATCH_SIZE) st.buf)] } := by
      unfold scrapeFlushRemainder
      rw [if_pos hrem]
    rw [hre]
    dsimp only
    have hfb2 : flushBatches [Event.flushCall (lastN (st.buf.length % BATCH_SIZE) st.buf)] =
        [lastN (st.buf.length % BATCH_SIZE) st.buf] := by
      simp [flushBatches]
    have hlast : (lastN (st.buf.length % BATCH_SIZE) st.buf).length =
        st.buf.length % BATCH_SIZE :=
      lastN_length (by rw [hB]; omega)
    refine ⟨?_, ?_, ?_, ?_⟩
    · rw [flushBatches_append, hfb2, List.flatten_append, hflat]
      simp only [List.flatten_cons, List.flatten_nil, List.append_nil]
      rw [lastN_eq_drop]
      exact List.take_append_drop _ _
    · intro b hb
      rw [flushBatches_append, hfb2] at hb
      simp only [List.dropLast_concat] at hb
      exact hfull b hb
    · intro b hb
      rw [flushBatches_append, hfb2] at hb
      rcases List.mem_append.mp hb with hold | hnew
      · have := hfull b hold
        refine ⟨?_, by omega⟩
        intro hnil
        rw [hnil] at this
        simp [hB] at this
      · have hbe : b = lastN (st.buf.length % BATCH_SIZE) st.buf := by simpa using hnew
        subst hbe
        refine ⟨?_, by rw [hlast, hB]; omega⟩
        intro hnil
        rw [hnil] at hlast
        simp at hlast
        omega
    · rw [flushBatches_append, hfb2]
      simp only [List.length_append, List.length_cons, List.length_nil]
      rw [if_neg (by omega)]
      rw [hB] at hrem ⊢
      omega
  · have hre : scrapeFlushRemainder st = st := by
      unfold scrapeFlushRemainder
      rw [if_neg hrem]
    rw [hre]
    have hmod0 : st.buf.length % BATCH_SIZE = 0 := by omega
    refine ⟨?_, ?_, ?_, ?_⟩
    · rw [hflat, hmod0, Nat.sub_zero, List.take_length]
    · intro b hb
      exact hfull b ((List.dropLast_sublist _).subset hb)
    · intro b hb
      have := hfull b hb
      refine ⟨?_, by omega⟩
      intro hnil
      rw [hnil] at this
      simp [hB] at this
    · rw [if_pos hmod0]
      rw [hB] at hmod0 ⊢
      omega

/-- C6: in every non-failing map-scrape run, the flushed batches
concatenate to exactly the buffer of accepted leads (each accepted lead
written exactly once, in order), every batch but the last is exactly
`BATCH_SIZE` (the automatic flush of the most recent `BATCH_SIZE` leads at
each multiple of the batch size), no batch is empty or larger than
`BATCH_SIZE` (the non-empty remainder flushed exactly once at run end), and
the number of flushes is `buf.length / BATCH_SIZE` plus one more exactly
when a non-empty remainder exists. -/
theorem scrape_flush_C6 (key locFile : String) (keywords : List String)
    (locations : List Location) (maxLeads : Nat)
    (outcomes : List (Except String (List Lead))) (st : ScrapeState)
    (hst : st = scrapeRunFull (some key) locFile keywords locations maxLeads outcomes)
    (hloc : locations ≠ []) :
    (flushBatches st.events).flatten = st.buf ∧
    (∀ b ∈ (flushBatches st.events).dropLast, b.length = BATCH_SIZE) ∧
    (∀ b ∈ flushBatches st.events, b ≠ [] ∧ b.length ≤ BATCH_SIZE) ∧
    (flushBatches st.events).length =
      st.buf.length / BATCH_SIZE +
        (if st.buf.length % BATCH_SIZE = 0 then 0 else 1) := by
  subst hst
  rw [scrapeRunFull_some key locFile keywords locations maxLeads outcomes hloc]
  have hinv := scrapeInv_loop (keywords.length * locations.length) maxLeads
    outcomes ⟨[], [], 0, []⟩ scrapeInv_init
  have hspec := scrapeFlushRemainder_spec _ hinv
  rw [flushBatches_scrapeFinish, scrapeFinish_buf, scrapeFlushRemainder_buf]
  exact hspec

theorem scrape_flush_C6_witness :
    ([⟨"Austin", "TX", "78701", "USA"⟩] : List Location) ≠ [] ∧
    ((flushBatches (scrapeRunFull (some "k") "data/us_locations.csv" ["plumber"]
        [⟨"Austin", "TX", "78701", "USA"⟩] 1000
        [Except.ok [⟨"1", "p1", "", ""⟩, ⟨"2", "p2", "", ""⟩]]).events).flatten =
      (scrapeRunFull (some "k") "data/us_locations.csv" ["plumber"]
        [⟨"Austin", "TX", "78701", "USA"⟩] 1000
        [Except.ok [⟨"1", "p1", "", ""⟩, ⟨"2", "p2", "", ""⟩]]).buf) := by
  refine ⟨by decide, ?_⟩
  exact (scrape_flush_C6 "k" "data/us_locations.csv" ["plumber"]
    [⟨"Austin", "TX", "78701", "USA"⟩] 1000
    [Except.ok [⟨"1", "p1", "", ""⟩, ⟨"2", "p2", "", ""⟩]] _ rfl (by decide)).1

/-! ### Lemmas about progress reporting -/

/-- Invariant of a trace with respect to a bound: every reported progress
value is at most the bound, and the reported values are non-decreasing. -/
def ReporterInv (evs : List Event) (bound : Nat) : Prop :=
  (∀ x ∈ progressValues evs, x ≤ bound) ∧
    List.Pairwise (fun a b => a ≤ b) (progressValues evs)

theorem reporterInv_nil (bound : Nat) : ReporterInv [] bound := by
  constructor <;> simp [progressValues]

theorem reporterInv_mono {evs : List Event} {b₁ b₂ : Nat}
    (h : ReporterInv evs b₁) (hle : b₁ ≤ b₂) : ReporterInv evs b₂ :=
  ⟨fun x hx => le_trans (h.1 x hx) hle, h.2⟩

theorem reporterInv_append_none {evs extra : List Event} {b : Nat}
    (h : ReporterInv evs b) (hex : progressValues extra = []) :
    ReporterInv (evs ++ extra) b := by
  constructor
  · intro x hx
    rw [progressValues_append, hex, List.append_nil] at hx
    exact h.1 x hx
  · rw [progressValues_append, hex, List.append_nil]
    exact h.2

theorem reporterInv_append_report {evs : List Event} {b v t : Nat}
    {m : List (String × Nat)} (h : ReporterInv evs b) (hbv : b ≤ v) :
    ReporterInv (evs ++ [Event.progress v t m]) v := by
  have hpv : progressValues [Event.progress v t m] = [v] := by
    simp [progressValues]
  constructor
  · intro x hx
    rw [progressValues_append, hpv] at hx
    rcases List.mem_append.mp hx with hold | hnew
    · exact le_trans (h.1 x hold) hbv
    · simp only [List.mem_singleton] at hnew
      exact le_of_eq hnew
  · rw [progressValues_append, hpv, List.pairwise_append]
    refine ⟨h.2, by simp, ?_⟩
    intro a ha c hc
    simp only [List.mem_singleton] at hc
    subst hc
    exact le_trans (h.1 a ha) hbv

theorem cleanInv_step (total : Nat) (st : CleanState)
    (c : Lead × Except String Bool)
    (h : ReporterInv st.events st.processed) :
    ReporterInv (cleanStep total st c).events (cleanStep total st c).processed := by
  rcases c with ⟨lead, out⟩
  have hmono := reporterInv_mono h (Nat.le_succ st.processed)
  have hupd : ∀ (i : String), progressValues [Event.updateLead i] = [] := by
    intro i
    simp [progressValues]
  cases out with
  | error e =>
    simp only [cleanStep]
    by_cases hc : (st.processed + 1) % 50 = 0
    · rw [if_pos hc]
      exact reporterInv_append_report h (Nat.le_succ _)
    · rw [if_neg hc]
      exact hmono
  | ok b =>
    cases b with
    | true =>
      simp only [cleanStep]
      by_cases hc : (st.processed + 1) % 50 = 0
      · rw [if_pos hc]
        exact reporterInv_append_report (reporterInv_append_none h (hupd _))
          (Nat.le_succ _)
      · rw [if_neg hc]
        exact reporterInv_append_none hmono (hupd _)
    | false =>
      simp only [cleanStep]
      by_cases hc : (st.processed + 1) % 50 = 0
      · rw [if_pos hc]
        exact reporterInv_append_report (reporterInv_append_none h (hupd _))
          (Nat.le_succ _)
      · rw [if_neg hc]
        exact reporterInv_append_none hmono (hupd _)

theorem cleanFold_inv (total : Nat) :
    ∀ (completions : List (Lead × Except String Bool)) (st : CleanState),
      ReporterInv st.events st.processed →
      ReporterInv (completions.foldl (cleanStep total) st).events
        (completions.foldl (cleanStep total) st).processed := by
  intro completions
  induction completions with
  | nil => intro st h; exact h
  | cons c rest ih =>
    intro st h
    exact ih _ (cleanInv_step total st c h)

theorem anymailInv_step (total : Nat) (extractDomain : String → Option String)
    (st : AnymailState) (c : Lead × Option AnymailResult)
    (h : ReporterInv st.events st.processed) :
    ReporterInv (anymailStep total extractDomain st c).events
      (anymailStep total extractDomain st c).processed := by
  have hmono := reporterInv_mono h (Nat.le_succ st.processed)
  have htask : progressValues [Event.task] = [] := by simp [progressValues]
  have hupd : ∀ (i : String), progressValues [Event.updateLead i] = [] := by
    intro i
    simp [progressValues]
  simp only [anymailStep]
  cases hdom : extractDomain (if c.1.companyWebsite ≠ "" then c.1.companyWebsite
      else c.1.domain) with
  | none => exact hmono
  | some d =>
    dsimp only
    have h2 : ReporterInv (st.events ++ [Event.task]) st.processed :=
      reporterInv_append_none h htask
    cases hc2 : c.2 with
    | none =>
      dsimp only
      by_cases hc : (st.processed + 1) % 10 = 0
      · rw [if_pos hc]
        exact reporterInv_append_report h2 (Nat.le_succ _)
      · rw [if_neg hc]
        exact reporterInv_mono h2 (Nat.le_succ _)
    | some r =>
      dsimp only
      by_cases hmail : r.email ≠ ""
      · rw [if_pos hmail]
        have h3 : ReporterInv ((st.events ++ [Event.task]) ++
            [Event.updateLead c.1.id]) st.processed :=
          reporterInv_append_none h2 (hupd _)
        by_cases hc : (st.processed + 1) % 10 = 0
        · rw [if_pos hc]
          exact reporterInv_append_report h3 (Nat.le_succ _)
        · rw [if_neg hc]
          exact reporterInv_mono h3 (Nat.le_succ _)
      · rw [if_neg hmail]
        by_cases hc : (st.processed + 1) % 10 = 0
        · rw [if_pos hc]
          exact reporterInv_append_report h2 (Nat.le_succ _)
        · rw [if_neg hc]
          exact reporterInv_mono h2 (Nat.le_succ _)

theorem anymailFold_inv (total : Nat) (extractDomain : String → Option String) :
    ∀ (cs : List (Lead × Option AnymailResult)) (st : AnymailState),
      ReporterInv st.events st.processed →
      ReporterInv (cs.foldl (anymailStep total extractDomain) st).events
        (cs.foldl (anymailStep total extractDomain) st).processed := by
  intro cs
  induction cs with
  | nil => intro st h; exact h
  | cons c rest ih =>
    intro st h
    exact ih _ (anymailInv_step total extractDomain st c h)

theorem progressValues_tasks (xs : List (Lead × Except String Bool)) :
    progressValues (xs.map fun _ => Event.task) = [] := by
  induction xs with
  | nil => rfl
  | cons a rest ih => simp [progressValues] at ih ⊢

theorem reporterInv_final {evs : List Event} {P : Nat} (h : ReporterInv evs P) :
    List.Pairwise (fun a b => a ≤ b) (0 :: (progressValues evs ++ [P])) := by
  rw [List.pairwise_cons]
  refine ⟨fun x _ => Nat.zero_le x, ?_⟩
  rw [List.pairwise_append]
  refine ⟨h.2, by simp, ?_⟩
  intro a ha b hb
  simp only [List.mem_singleton] at hb
  subst hb
  exact h.1 a ha

theorem reporterInv_concat {evs : List Event} {P : Nat} (h : ReporterInv evs P) :
    List.Pairwise (fun a b => a ≤ b) (progressValues evs ++ [P]) := by
  rw [List.pairwise_append]
  refine ⟨h.2, by simp, ?_⟩
  intro a ha b hb
  simp only [List.mem_singleton] at hb
  subst hb
  exact h.1 a ha

theorem progressValues_scrapeFlushRemainder (st : ScrapeState) :
    progressValues (scrapeFlushRemainder st).events = progressValues st.events := by
  unfold scrapeFlushRemainder
  split
  · dsimp only
    rw [progressValues_append]
    simp [progressValues]
  · rfl

theorem progressValues_scrapeFinish (st : ScrapeState) :
    progressValues (scrapeFinish st).events =
      progressValues st.events ++ [st.buf.length] := by
  simp [scrapeFinish, progressValues_append, progressValues]

/-- C7: in each of the three workers, the `processed` values passed to
successive `update_progress` calls are non-decreasing in call order, for
every input, completion order and task outcome. -/
theorem progress_monotone_C7 :
    (∀ (maxLeads : Nat) (fetched : List Lead)
       (completions : List (Lead × Except String Bool)),
       List.Pairwise (fun a b => a ≤ b)
         (progressValues (cleanLeadsRun maxLeads fetched completions))) ∧
    (∀ (apiKey : Option String) (maxLeads : Nat)
       (extractDomain : String → Option String) (fetched : List Lead)
       (results : List (Option AnymailResult)),
       List.Pairwise (fun a b => a ≤ b)
         (progressValues (anymailRun apiKey maxLeads extractDomain fetched results))) ∧
    (∀ (apiKey : Option String) (locFile : String) (keywords : List String)
       (locations : List Location) (maxLeads : Nat)
       (outcomes : List (Except String (List Lead))),
       List.Pairwise (fun a b => a ≤ b)
         (progressValues
           (scrapeRunFull apiKey locFile keywords locations maxLeads outcomes).events)) := by
  refine ⟨?_, ?_, ?_⟩
  · intro maxLeads fetched completions
    by_cases hne : fetched = []
    · simp [cleanLeadsRun, hne, progressValues]
    · rw [cleanLeadsRun, if_neg hne]
      have hinv := cleanFold_inv fetched.length completions ⟨0, 0, 0, []⟩
        (reporterInv_nil 0)
      have h1 : progressValues
          [Event.fetch maxLeads, Event.progress 0 fetched.length []] = [0] := by
        simp [progressValues]
      have h2 : ∀ (P : Nat) (M : List (String × Nat)),
          progressValues [Event.progress P fetched.length M, Event.complete] = [P] := by
        intro P M
        simp [progressValues]
      simp only [progressValues_append, progressValues_tasks, h1, h2,
        List.singleton_append, List.nil_append]
      exact reporterInv_final hinv
  · intro apiKey maxLeads extractDomain fetched results
    cases apiKey with
    | none => simp [anymailRun, progressValues]
    | some k =>
      by_cases hle : anymailEligible fetched = []
      · simp [anymailRun, hle, progressValues]
      · rw [anymailRun]
        dsimp only
        rw [if_neg hle]
        have hinv := anymailFold_inv (anymailEligible fetched).length extractDomain
          ((anymailEligible fetched).zip results) ⟨0, 0, 0, []⟩ (reporterInv_nil 0)
        have h1 : progressValues
            [Event.fetch maxLeads,
             Event.progress 0 (anymailEligible fetched).length []] = [0] := by
          simp [progressValues]
        have h2 : ∀ (P : Nat) (M : List (String × Nat)),
            progressValues
              [Event.progress P (anymailEligible fetched).length M,
               Event.complete] = [P] := by
          intro P M
          simp [progressValues]
        simp only [progressValues_append, h1, h2, List.singleton_append,
          List.nil_append]
        exact reporterInv_final hinv
  · intro apiKey locFile keywords locations maxLeads outcomes
    cases apiKey with
    | none => simp [scrapeRunFull, progressValues]
    | some k =>
      by_cases hloc : locations = []
      · subst hloc
        simp [scrapeRunFull, progressValues]
      · rw [scrapeRunFull_some k locFile keywords locations maxLeads outcomes hloc]
        have hinv := scrapeInv_loop (keywords.length * locations.length) maxLeads
          outcomes ⟨[], [], 0, []⟩ scrapeInv_init
        have hrep : ReporterInv
            (scrapeLoop (keywords.length * locations.length) maxLeads
              ⟨[], [], 0, []⟩ outcomes).events
            (scrapeLoop (keywords.length * locations.length) maxLeads
              ⟨[], [], 0, []⟩ outcomes).buf.length :=
          ⟨fun x hx => (hinv.2.2.1 x hx).1, hinv.2.2.2⟩
        rw [progressValues_scrapeFinish, scrapeFlushRemainder_buf,
          progressValues_scrapeFlushRemainder]
        exact reporterInv_concat hrep

/-- C8: when the required credential lookup answers `none`, both
credential-guarded workers fail immediately: the whole trace is the single
`fail` transition — no lead fetch is issued, no network task runs, no batch
is flushed, nothing is accepted, and no progress report is made. -/
theorem missing_credential_C8 :
    (∀ (maxLeads : Nat) (extractDomain : String → Option String)
       (fetched : List Lead) (results : List (Option AnymailResult)),
       anymailRun none maxLeads extractDomain fetched results =
         [Event.failed anymailNoKeyMsg] ∧
       progressReports (anymailRun none maxLeads extractDomain fetched results) = [] ∧
       Event.task ∉ anymailRun none maxLeads extractDomain fetched results ∧
       (∀ (L : Nat),
         Event.fetch L ∉ anymailRun none maxLeads extractDomain fetched results)) ∧
    (∀ (locFile : String) (keywords : List String) (locations : List Location)
       (maxLeads : Nat) (outcomes : List (Except String (List Lead))),
       (scrapeRunFull none locFile keywords locations maxLeads outcomes).events =
         [Event.failed scrapeNoKeyMsg] ∧
       progressReports
         (scrapeRunFull none locFile keywords locations maxLeads outcomes).events = [] ∧
       Event.task ∉
         (scrapeRunFull none locFile keywords locations maxLeads outcomes).events ∧
       (∀ (b : List Lead), Event.flushCall b ∉
         (scrapeRunFull none locFile keywords locations maxLeads outcomes).events) ∧
       (scrapeRunFull none locFile keywords locations maxLeads outcomes).buf = []) := by
  constructor
  · intro maxLeads extractDomain fetched results
    refine ⟨rfl, by simp [anymailRun, progressReports], ?_, ?_⟩
    · simp [anymailRun]
    · intro L
      simp [anymailRun]
  · intro locFile keywords locations maxLeads outcomes
    refine ⟨rfl, by simp [scrapeRunFull, progressReports], ?_, ?_, rfl⟩
    · simp [scrapeRunFull]
    · intro b
      simp [scrapeRunFull]

theorem scrapeFinish_events (st : ScrapeState) :
    (scrapeFinish st).events = st.events ++
      [Event.progress st.buf.length st.buf.length [], Event.complete] := rfl

theorem progressReports_scrapeFinish (st : ScrapeState) :
    progressReports (scrapeFinish st).events =
      progressReports st.events ++ [⟨st.buf.length, st.buf.length, []⟩] := by
  simp [scrapeFinish, progressReports_append, progressReports]

/-- C1: when a worker body ends in an uncaught error, the lifecycle wrapper
(modelled from the spec, see `runJob`) records the job as failed with the
error message truncated to 2000 characters (`fail`, `base.py` lines
159-166) and stamps completion; and whenever a normal return itself
recorded a terminal state, the run ends in a terminal state — so a terminal
state is always recorded. -/
theorem uncaught_error_C1 (j j' : JobRecord)
    (body : JobRecord → JobRecord × Option String) (e : String)
    (hbody : body j = (j', some e)) :
    runJob j body = fail j' e ∧
    (runJob j body).status = "failed" ∧
    (runJob j body).errorMsg = some (e.take 2000) ∧
    (runJob j body).completedAt = true ∧
    (∀ (j₂ j₂' : JobRecord), body j₂ = (j₂', none) →
      (j₂'.status = "completed" ∨ j₂'.status = "failed") →
      ((runJob j₂ body).status = "completed" ∨
        (runJob j₂ body).status = "failed")) := by
  have hr : runJob j body = fail j' e := by
    unfold runJob
    rw [hbody]
  refine ⟨hr, by rw [hr]; rfl, by rw [hr]; rfl, by rw [hr]; rfl, ?_⟩
  intro j₂ j₂' h2 hterm
  unfold runJob
  rw [h2]
  exact hterm

theorem uncaught_error_C1_witness :
    (fun (j : JobRecord) => (j, some "boom"))
        ⟨"running", none, ⟨0, 0, []⟩, false⟩ =
      (⟨"running", none, ⟨0, 0, []⟩, false⟩, some "boom") ∧
    (runJob ⟨"running", none, ⟨0, 0, []⟩, false⟩
        (fun j => (j, some "boom"))).status = "failed" ∧
    (runJob ⟨"running", none, ⟨0, 0, []⟩, false⟩
        (fun j => (j, some "boom"))).errorMsg = some (String.take "boom" 2000) :=
  ⟨rfl,
   (uncaught_error_C1 ⟨"running", none, ⟨0, 0, []⟩, false⟩
     ⟨"running", none, ⟨0, 0, []⟩, false⟩ (fun j => (j, some "boom")) "boom" rfl).2.1,
   (uncaught_error_C1 ⟨"running", none, ⟨0, 0, []⟩, false⟩
     ⟨"running", none, ⟨0, 0, []⟩, false⟩ (fun j => (j, some "boom")) "boom" rfl).2.2.1⟩

/-- C10: `update_progress` replaces the job's whole `progress` object with
exactly the snapshot of the call — after any sequence of calls the
persisted progress is exactly the last call's `processed`, `total` and
metric pairs, so a metric key omitted from the last call is absent no
matter what earlier calls reported; in particular the map-scrape worker's
final report persists empty metrics, dropping the earlier `searches` and
`total_searches` entries. -/
theorem progress_replace_C10 (j : JobRecord)
    (calls : List (Nat × Nat × List (String × Nat)))
    (c : Nat × Nat × List (String × Nat)) (k : String)
    (hk : k ∉ c.2.2.map Prod.fst) :
    ((calls ++ [c]).foldl update_progress j).progress = ⟨c.1, c.2.1, c.2.2⟩ ∧
    k ∉ (((calls ++ [c]).foldl update_progress j).progress.metrics.map Prod.fst) ∧
    (∀ (key locFile : String) (keywords : List String)
       (locations : List Location) (maxLeads : Nat)
       (outcomes : List (Except String (List Lead))),
       locations ≠ [] →
       (progressReports (scrapeRunFull (some key) locFile keywords locations
           maxLeads outcomes).events).getLast? =
         some ⟨(scrapeRunFull (some key) locFile keywords locations maxLeads
             outcomes).buf.length,
           (scrapeRunFull (some key) locFile keywords locations maxLeads
             outcomes).buf.length, []⟩) := by
  have h1 : ((calls ++ [c]).foldl update_progress j).progress =
      ⟨c.1, c.2.1, c.2.2⟩ := by
    rw [List.foldl_append]
    rfl
  refine ⟨h1, ?_, ?_⟩
  · rw [h1]
    exact hk
  · intro key locFile keywords locations maxLeads outcomes hloc
    rw [scrapeRunFull_some key locFile keywords locations maxLeads outcomes hloc,
      progressReports_scrapeFinish, scrapeFinish_buf, scrapeFlushRemainder_buf]
    exact List.getLast?_concat _

theorem progress_replace_C10_witness :
    ("searches" ∉ ([("found", 2)] : List (String × Nat)).map Prod.fst) ∧
    (([(1, 10, [("searches", 1)])] ++
        [(5, 10, [("found", 2)])]).foldl update_progress
        ⟨"running", none, ⟨0, 0, []⟩, false⟩).progress = ⟨5, 10, [("found", 2)]⟩ :=
  ⟨by decide,
   (progress_replace_C10 ⟨"running", none, ⟨0, 0, []⟩, false⟩
     [(1, 10, [("searches", 1)])] (5, 10, [("found", 2)]) "searches" (by decide)).1⟩

/-- C9, counterexample.  Two concrete runs refute the claim as stated.
First, a map-scrape run that passes all preconditions (key present,
locations loaded) and accepts three leads makes exactly one
`update_progress` call — the final `(3, 3)` report — so
`ScrapeGoogleMapsWorker.run` never makes the claimed unconditional start
report `update_progress(0, total)`.  Second, an anymail run over ten
eligible leads whose domain extraction fails every time (as for a website
whose parsed netloc is empty) reaches `processed = 10` — a cadence point,
`10 % 10 = 0` — yet makes no in-loop report at all: the `continue` at
`anymail_find_emails.py` line 65 skips the every-10 report, so the trace
holds only the start report and the final report, not the claimed
fixed-cadence report at the 10th item. -/
theorem progress_protocol_C9_counterexample :
    (progressReports (scrapeRunFull (some "k") "data/us_locations.csv" ["plumber"]
        [⟨"Austin", "TX", "78701", "USA"⟩] 1000
        [Except.ok [⟨"1", "p1", "", ""⟩, ⟨"2", "p2", "", ""⟩,
          ⟨"3", "p3", "", ""⟩]]).events =
      [⟨3, 3, []⟩] ∧ (3 : Nat) ≠ 0) ∧
    (progressReports (anymailRun (some "k") 100 (fun _ => none)
        (List.replicate 10 (⟨"a", "", "w", ""⟩ : Lead))
        (List.replicate 10 (none : Option AnymailResult))) =
      [⟨0, 10, []⟩, ⟨10, 10, [("found", 0), ("credits_used", 0)]⟩] ∧
     (10 : Nat) % 10 = 0) := by
  constructor
  · constructor
    · rfl
    · decide
  · constructor
    · rfl
    · decide

theorem getLast?_append_two {α : Type} (l : List α) (a b : α) :
    (l ++ [a, b]).getLast? = some b := by
  have h : l ++ [a, b] = (l ++ [a]) ++ [b] := by simp
  rw [h]
  exact List.getLast?_concat _

theorem dropLast_append_two {α : Type} (l : List α) (a b : α) :
    (l ++ [a, b]).dropLast = l ++ [a] := by
  have h : l ++ [a, b] = (l ++ [a]) ++ [b] := by simp
  rw [h, List.dropLast_concat]

theorem progressReports_tasks (xs : List (Lead × Except String Bool)) :
    progressReports (xs.map fun _ => Event.task) = [] := by
  induction xs with
  | nil => rfl
  | cons a rest ih => simp [progressReports] at ih ⊢

theorem cleanStep_processed (total : Nat) (st : CleanState)
    (c : Lead × Except String Bool) :
    (cleanStep total st c).processed = st.processed + 1 := by
  rcases c with ⟨lead, out⟩
  rcases out with e | b
  · simp only [cleanStep]
    split <;> rfl
  · cases b <;> (simp only [cleanStep]; split <;> rfl)

theorem cleanFold_processed (total : Nat) :
    ∀ (completions : List (Lead × Except String Bool)) (st : CleanState),
      (completions.foldl (cleanStep total) st).processed =
        st.processed + completions.length := by
  intro completions
  induction completions with
  | nil => intro st; rfl
  | cons c rest ih =>
    intro st
    rw [List.foldl_cons, ih, cleanStep_processed]
    simp only [List.length_cons]
    omega

theorem anymailStep_processed (total : Nat) (extractDomain : String → Option String)
    (st : AnymailState) (c : Lead × Option AnymailResult) :
    (anymailStep total extractDomain st c).processed = st.processed + 1 := by
  simp only [anymailStep]
  cases extractDomain (if c.1.companyWebsite ≠ "" then c.1.companyWebsite
      else c.1.domain) with
  | none => rfl
  | some d =>
    dsimp only
    cases c.2 with
    | none => split <;> rfl
    | some r =>
      dsimp only
      split <;> (split <;> rfl)

theorem anymailFold_processed (total : Nat) (extractDomain : String → Option String) :
    ∀ (cs : List (Lead × Option AnymailResult)) (st : AnymailState),
      (cs.foldl (anymailStep total extractDomain) st).processed =
        st.processed + cs.length := by
  intro cs
  induction cs with
  | nil => intro st; rfl
  | cons c rest ih =>
    intro st
    rw [List.foldl_cons, ih, anymailStep_processed]
    simp only [List.length_cons]
    omega

/-- The report values a cadence-`K` counter emits: starting from count `p`,
over `n` further completions the counter passes `p＋1, …, p＋n` and a report
is emitted exactly at each multiple of `K`. -/
def cadenceReports (K p n : Nat) : List Nat :=
  match n with
  | 0 => []
  | n + 1 => (if (p + 1) % K = 0 then [p + 1] else []) ++ cadenceReports K (p + 1) n

theorem cleanStep_pv (total : Nat) (st : CleanState)
    (c : Lead × Except String Bool) :
    progressValues (cleanStep total st c).events =
      progressValues st.events ++
        (if (st.processed + 1) % 50 = 0 then [st.processed + 1] else []) := by
  rcases c with ⟨lead, out⟩
  rcases out with e | b
  · by_cases hc : (st.processed + 1) % 50 = 0 <;>
      simp [cleanStep, hc, progressValues_append, progressValues]
  · cases b <;> (by_cases hc : (st.processed + 1) % 50 = 0 <;>
      simp [cleanStep, hc, progressValues_append, progressValues])

/-- The `clean_leads` loop reports exactly at every 50th completion
(`clean_leads.py` line 97): its in-loop report values are precisely the
cadence points of a counter that increments once per completion. -/
theorem cleanFold_pv (total : Nat) :
    ∀ (cs : List (Lead × Except String Bool)) (st : CleanState),
      progressValues (cs.foldl (cleanStep total) st).events =
        progressValues st.events ++ cadenceReports 50 st.processed cs.length := by
  intro cs
  induction cs with
  | nil => intro st; simp [cadenceReports]
  | cons c rest ih =>
    intro st
    rw [List.foldl_cons, ih, cleanStep_pv, cleanStep_processed, List.length_cons]
    simp only [cadenceReports]
    rw [List.append_assoc]

theorem anymailStep_pv (total : Nat) (extractDomain : String → Option String)
    (st : AnymailState) (c : Lead × Option AnymailResult) :
    progressValues (anymailStep total extractDomain st c).events =
      progressValues st.events ++
        (if (extractDomain (if c.1.companyWebsite ≠ "" then c.1.companyWebsite
              else c.1.domain)).isSome ∧ (st.processed + 1) % 10 = 0
         then [st.processed + 1] else []) := by
  simp only [anymailStep]
  cases hdom : extractDomain (if c.1.companyWebsite ≠ "" then c.1.companyWebsite
      else c.1.domain) with
  | none => simp
  | some d =>
    dsimp only
    cases hc2 : c.2 with
    | none =>
      by_cases hc : (st.processed + 1) % 10 = 0 <;>
        simp [hc, progressValues_append, progressValues]
    | some r =>
      by_cases hmail : r.email ≠ "" <;>
        (by_cases hc : (st.processed + 1) % 10 = 0 <;>
          simp [hmail, hc, progressValues_append, progressValues])

/-- The `anymail_find_emails` loop reports only at cadence points: every
in-loop report value is a multiple of 10 (a report can be skipped — see the
`continue` at `anymail_find_emails.py` line 65 — but never happens off the
cadence). -/
theorem anymailFold_mod (total : Nat) (extractDomain : String → Option String) :
    ∀ (cs : List (Lead × Option AnymailResult)) (st : AnymailState),
      (∀ v ∈ progressValues st.events, v % 10 = 0) →
      ∀ v ∈ progressValues
        ((cs.foldl (anymailStep total extractDomain) st)).events, v % 10 = 0 := by
  intro cs
  induction cs with
  | nil => intro st h; exact h
  | cons c rest ih =>
    intro st h
    rw [List.foldl_cons]
    apply ih
    intro v hv
    rw [anymailStep_pv] at hv
    rcases List.mem_append.mp hv with hold | hnew
    · exact h v hold
    · by_cases hcond : (extractDomain (if c.1.companyWebsite ≠ ""
          then c.1.companyWebsite else c.1.domain)).isSome = true ∧
          (st.processed + 1) % 10 = 0
      · rw [if_pos hcond] at hnew
        simp only [List.mem_singleton] at hnew
        subst hnew
        exact hcond.2
      · rw [if_neg hcond] at hnew
        simp at hnew

/-- When domain extraction succeeds on every input, the
`anymail_find_emails` loop reports exactly at every 10th processed lead. -/
theorem anymailFold_pv (total : Nat) (extractDomain : String → Option String)
    (hxd : ∀ s, (extractDomain s).isSome = true) :
    ∀ (cs : List (Lead × Option AnymailResult)) (st : AnymailState),
      progressValues ((cs.foldl (anymailStep total extractDomain) st)).events =
        progressValues st.events ++ cadenceReports 10 st.processed cs.length := by
  intro cs
  induction cs with
  | nil => intro st; simp [cadenceReports]
  | cons c rest ih =>
    intro st
    rw [List.foldl_cons, ih, anymailStep_pv, anymailStep_processed,
      List.length_cons]
    simp only [cadenceReports, hxd, true_and]
    rw [List.append_assoc]

/-- C9, amended: `clean_leads` and `anymail_find_emails` call
`update_progress` once at the start of processing with `processed = 0` and
the total count, and exactly once more with final counts (`processed` =
number of handled completions, the run's total) immediately before
`complete`.  `clean_leads` keeps the claimed fixed cadence exactly: its
in-loop reports are precisely one report at every 50th completion.
`anymail_find_emails` reports only at its every-10 cadence — exactly at
every 10th processed lead whenever domain extraction succeeds throughout —
but the report at a cadence point is skipped when that lead's domain
extraction fails (the loop's `continue`).  `scrape_google_maps` makes no
start report: every one of its in-run reports is at a buffer multiple of
`BATCH_SIZE` (a flushed batch), with exactly one final
`processed = total = accepted` report immediately before `complete`. -/
theorem progress_protocol_C9_amended
    (maxLeads : Nat) (fetched : List Lead)
    (completions : List (Lead × Except String Bool))
    (maxLeads₂ : Nat) (extractDomain : String → Option String)
    (fetched₂ : List Lead) (results : List (Option AnymailResult))
    (key locFile : String) (keywords : List String) (locations : List Location)
    (maxLeads₃ : Nat) (outcomes : List (Except String (List Lead)))
    (st : ScrapeState)
    (hne : fetched ≠ []) (hne₂ : anymailEligible fetched₂ ≠ [])
    (hst : st = scrapeRunFull (some key) locFile keywords locations maxLeads₃ outcomes)
    (hloc : locations ≠ []) :
    (progressReports (cleanLeadsRun maxLeads fetched completions)).head? =
      some ⟨0, fetched.length, []⟩ ∧
    progressValues (cleanLeadsRun maxLeads fetched completions) =
      0 :: (cadenceReports 50 0 completions.length ++ [completions.length]) ∧
    (∃ M, (cleanLeadsRun maxLeads fetched completions).getLast? =
        some Event.complete ∧
      (cleanLeadsRun maxLeads fetched completions).dropLast.getLast? =
        some (Event.progress completions.length fetched.length M)) ∧
    (progressReports
        (anymailRun (some key) maxLeads₂ extractDomain fetched₂ results)).head? =
      some ⟨0, (anymailEligible fetched₂).length, []⟩ ∧
    (∃ M, (anymailRun (some key) maxLeads₂ extractDomain fetched₂ results).getLast? =
        some Event.complete ∧
      (anymailRun (some key) maxLeads₂ extractDomain fetched₂ results).dropLast.getLast? =
        some (Event.progress ((anymailEligible fetched₂).zip results).length
          (anymailEligible fetched₂).length M)) ∧
    (∀ v ∈ ((progressValues
        (anymailRun (some key) maxLeads₂ extractDomain fetched₂ results)).drop
          1).dropLast, v % 10 = 0) ∧
    ((∀ s, (extractDomain s).isSome = true) →
      progressValues (anymailRun (some key) maxLeads₂ extractDomain fetched₂ results) =
        0 :: (cadenceReports 10 0 ((anymailEligible fetched₂).zip results).length ++
          [((anymailEligible fetched₂).zip results).length])) ∧
    (st.events.getLast? = some Event.complete ∧
     st.events.dropLast.getLast? =
       some (Event.progress st.buf.length st.buf.length []) ∧
     (∀ p ∈ (progressValues st.events).dropLast, p % BATCH_SIZE = 0)) := by
  have h1c : progressValues
      [Event.fetch maxLeads, Event.progress 0 fetched.length []] = [0] := by
    simp [progressValues]
  have h2c : ∀ (P : Nat) (M : List (String × Nat)),
      progressValues [Event.progress P fetched.length M, Event.complete] = [P] := by
    intro P M
    simp [progressValues]
  have h1a : progressValues
      [Event.fetch maxLeads₂,
       Event.progress 0 (anymailEligible fetched₂).length []] = [0] := by
    simp [progressValues]
  have h2a : ∀ (P : Nat) (M : List (String × Nat)),
      progressValues
        [Event.progress P (anymailEligible fetched₂).length M,
         Event.complete] = [P] := by
    intro P M
    simp [progressValues]
  refine ⟨?_, ?_, ?_, ?_, ?_, ?_, ?_, ?_⟩
  · rw [cleanLeadsRun, if_neg hne]
    have h1 : progressReports
        [Event.fetch maxLeads, Event.progress 0 fetched.length []] =
        [⟨0, fetched.length, []⟩] := by
      simp [progressReports]
    simp only [progressReports_append, progressReports_tasks, h1,
      List.singleton_append, List.nil_append]
    rfl
  · rw [cleanLeadsRun, if_neg hne]
    simp only [progressValues_append, progressValues_tasks, h1c, h2c,
      List.singleton_append, List.nil_append]
    rw [cleanFold_pv, cleanFold_processed]
    simp [progressValues]
  · rw [cleanLeadsRun, if_neg hne]
    refine ⟨[("valid",
        (completions.foldl (cleanStep fetched.length) ⟨0, 0, 0, []⟩).valid),
      ("invalid",
        (completions.foldl (cleanStep fetched.length) ⟨0, 0, 0, []⟩).invalid)],
      ?_, ?_⟩
    · simp [List.getLast?_cons]
    · simp [List.getLast?_cons, List.dropLast_cons_of_ne_nil, cleanFold_processed]
  · rw [anymailRun]
    dsimp only
    rw [if_neg hne₂]
    have h1 : progressReports
        [Event.fetch maxLeads₂, Event.progress 0 (anymailEligible fetched₂).length []] =
        [⟨0, (anymailEligible fetched₂).length, []⟩] := by
      simp [progressReports]
    simp only [progressReports_append, h1, List.singleton_append,
      List.nil_append]
    rfl
  · rw [anymailRun]
    dsimp only
    rw [if_neg hne₂]
    refine ⟨[("found",
        (((anymailEligible fetched₂).zip results).foldl
          (anymailStep (anymailEligible fetched₂).length extractDomain)
          ⟨0, 0, 0, []⟩).found),
      ("credits_used",
        (((anymailEligible fetched₂).zip results).foldl
          (anymailStep (anymailEligible fetched₂).length extractDomain)
          ⟨0, 0, 0, []⟩).creditsUsed)], ?_, ?_⟩
    · simp [List.getLast?_cons]
    · simp [List.getLast?_cons, List.dropLast_cons_of_ne_nil, anymailFold_processed]
  · rw [anymailRun]
    dsimp only
    rw [if_neg hne₂]
    simp only [progressValues_append, h1a, h2a, List.singleton_append,
      List.nil_append]
    intro v hv
    simp only [List.drop_one, List.cons_append, List.tail_cons,
      List.dropLast_concat] at hv
    exact anymailFold_mod (anymailEligible fetched₂).length extractDomain
      ((anymailEligible fetched₂).zip results) ⟨0, 0, 0, []⟩
      (by simp [progressValues]) v hv
  · intro hxd
    rw [anymailRun]
    dsimp only
    rw [if_neg hne₂]
    simp only [progressValues_append, h1a, h2a, List.singleton_append,
      List.nil_append]
    rw [anymailFold_pv (anymailEligible fetched₂).length extractDomain hxd,
      anymailFold_processed]
    simp [progressValues]
  · subst hst
    rw [scrapeRunFull_some key locFile keywords locations maxLeads₃ outcomes hloc]
    have hinv := scrapeInv_loop (keywords.length * locations.length) maxLeads₃
      outcomes ⟨[], [], 0, []⟩ scrapeInv_init
    refine ⟨?_, ?_, ?_⟩
    · simp [scrapeFinish_events]
    · simp [scrapeFinish_events, scrapeFinish_buf]
    · rw [progressValues_scrapeFinish, List.dropLast_concat,
        progressValues_scrapeFlushRemainder]
      intro p hp
      exact (hinv.2.2.1 p hp).2

/-- A concrete location row used by concrete instances. -/
def demoLoc : Location := ⟨"Austin", "TX", "78701", "USA"⟩

/-- A concrete lead with a website, eligible for the anymail worker. -/
def demoLeadW : Lead := ⟨"x", "", "w", ""⟩

theorem progress_protocol_C9_amended_witness :
    ([demoLeadW] : List Lead) ≠ [] ∧ anymailEligible [demoLeadW] ≠ [] ∧
    ([demoLoc] : List Location) ≠ [] ∧
    ((progressReports (cleanLeadsRun 100 [demoLeadW]
        [(demoLeadW, Except.ok true)])).head? = some ⟨0, 1, []⟩ ∧
     progressValues (cleanLeadsRun 100 [demoLeadW] [(demoLeadW, Except.ok true)]) =
       0 :: (cadenceReports 50 0 1 ++ [1]) ∧
     (∃ M, (cleanLeadsRun 100 [demoLeadW]
          [(demoLeadW, Except.ok true)]).getLast? = some Event.complete ∧
        (cleanLeadsRun 100 [demoLeadW]
          [(demoLeadW, Except.ok true)]).dropLast.getLast? =
          some (Event.progress 1 1 M))) := by
  have h := progress_protocol_C9_amended 100 [demoLeadW]
    [(demoLeadW, Except.ok true)] 50 (fun s => some s) [demoLeadW] [none]
    "k" "f" ["kw"] [demoLoc] 1000 [Except.ok [⟨"1", "p1", "", ""⟩]]
    (scrapeRunFull (some "k") "f" ["kw"] [demoLoc] 1000
      [Except.ok [⟨"1", "p1", "", ""⟩]])
    (by decide) (by decide) rfl (by decide)
  exact ⟨by decide, by decide, by decide, h.1, h.2.1, h.2.2.1⟩
